import Mathlib

/-!
Verification development for the EEGraSP graph module (`eegrasp/graph.py`).

Distances, kernel parameters and learned weights are embedded as rationals
(the program's inputs are finite-precision numbers); Gaussian-kernel weights
live in `ℝ` since they are values of the real exponential.  NaN-carrying
float values are embedded as `Option ℚ` (`none` = NaN), and Python calls
that can raise are embedded as `Option`-returning functions (`none` = an
exception is raised).
-/

namespace EEGraSP

/-- Square matrix of rational entries, indexed by `Fin n`. -/
abbrev Mat (n : ℕ) := Fin n → Fin n → ℚ

/-- Embedding of `gaussian_kernel` (graph.py line 32):
`np.exp(-np.power(x, 2.) / (2. * np.power(float(sigma), 2)))`. -/
noncomputable def gaussian_kernel (x : ℚ) (sigma : ℚ) : ℝ :=
  Real.exp (-((x : ℝ)) ^ 2 / (2 * ((sigma : ℝ)) ^ 2))

/-- ENN branch of `compute_graph` (graph.py lines 68-71), staged exactly as the
source: first the elementwise Gaussian kernel of the distance matrix, then
entries at `distances > epsilon` are overwritten with 0, then
`np.fill_diagonal(graph_weights, 0)`. -/
noncomputable def enn_weights {n : ℕ} (distances : Mat n) (epsilon sigma : ℚ) :
    Fin n → Fin n → ℝ :=
  let w0 : Fin n → Fin n → ℝ := fun i j => gaussian_kernel (distances i j) sigma
  let w1 : Fin n → Fin n → ℝ := fun i j =>
    if epsilon < distances i j then 0 else w0 i j
  fun i j => if i = j then 0 else w1 i j

/-- Squared Euclidean distance between rows `i` and `j` of the matrix `d`.
The KNN branch of `compute_graph` (graph.py lines 73-81) calls
`NearestNeighbors(n_neighbors=k+1).fit(distances)` and then
`kneighbors(distances)`: sklearn's default metric is Euclidean on the rows of
the array it is fitted on, i.e. each node `i` is represented by the point
`distances[i, :]` and neighbour ranking is by this row-space distance. -/
def rowDistSq {n : ℕ} (d : Mat n) (i j : Fin n) : ℚ :=
  ((List.finRange n).map (fun t => (d i t - d j t) ^ 2)).sum

/-- Neighbour ordering used by `kneighbors` for query row `i`: ascending
row-space distance, ties broken by index (the deterministic order a stable
argsort of the candidate distances produces). -/
def keyLe {n : ℕ} (d : Mat n) (i : Fin n) (a b : Fin n) : Prop :=
  rowDistSq d i a < rowDistSq d i b ∨
    (rowDistSq d i a = rowDistSq d i b ∧ a ≤ b)

instance keyLe.decidableRel {n : ℕ} (d : Mat n) (i : Fin n) :
    DecidableRel (keyLe d i) := fun a b => by
  unfold keyLe; infer_instance

/-- All candidate indices sorted by `kneighbors`' ranking for query `i`. -/
def knn_order {n : ℕ} (d : Mat n) (i : Fin n) : List (Fin n) :=
  List.insertionSort (keyLe d i) (List.finRange n)

/-- Embedding of `indices[i][1:]` in graph.py line 80: the first `k+1` ranked candidates
with the leading entry dropped ("skip self"). -/
def knn_neighbors {n : ℕ} (d : Mat n) (k : ℕ) (i : Fin n) : List (Fin n) :=
  ((knn_order d i).take (k + 1)).drop 1

/-- KNN branch of `compute_graph` (graph.py lines 73-81): start from
`np.zeros_like(distances)` and set
`graph_weights[i, j] = gaussian_kernel(distances[i, j], sigma)` for every `j`
in `indices[i][1:]`. -/
noncomputable def knn_weights {n : ℕ} (d : Mat n) (sigma : ℚ) (k : ℕ) :
    Fin n → Fin n → ℝ :=
  fun i j => if j ∈ knn_neighbors d k i then gaussian_kernel (d i j) sigma else 0

/-- Connectivity policy selector of `compute_graph` (`method='enn' | 'knn'`). -/
inductive Method
  | enn
  | knn

/-- Weight-matrix part of `compute_graph` (graph.py lines 35-95).  The Python
signature is `compute_graph(W=None, epsilon=.5, sigma=.1, distances=None,
graph=None, coordinates=None, method='enn', k=5)`; `graph`/`coordinates` only
decorate the returned Graph object and play no role in the weights.  When `W`
is given it is used directly (`graphs.Graph(W)`), the other parameters being
ignored; otherwise `distances` is required (`none` here = the `TypeError`
raised at lines 63-66) and the branch on `method` applies. -/
noncomputable def compute_graph {n : ℕ} (W : Option (Mat n)) (epsilon sigma : ℚ)
    (distances : Option (Mat n)) (method : Method) (k : ℕ) :
    Option (Fin n → Fin n → ℝ) :=
  match W with
  | some w => some (fun i j => ((w i j : ℚ) : ℝ))
  | none =>
    match distances with
    | none => none
    | some d =>
      match method with
      | Method.enn => some (enn_weights d epsilon sigma)
      | Method.knn => some (knn_weights d sigma k)

/-- Per-iteration graph construction inside the `fit_epsilon` sweep
(graph.py line 339): `compute_graph(distances, epsilon=epsilon, sigma=sigma)`.
The first argument is positional, so `distances` is bound to `compute_graph`'s
`W` parameter and the `distances` keyword of `compute_graph` stays `None`;
`method` and `k` keep their defaults. -/
noncomputable def fit_epsilon_iter_graph {n : ℕ} (distances : Mat n)
    (sigma epsilon : ℚ) : Option (Fin n → Fin n → ℝ) :=
  compute_graph (some distances) epsilon sigma none Method.enn 5

/-- Validity predicate for distance matrices used by the spec: square (by
typing), symmetric, non-negative, zero diagonal. -/
def validDistances {n : ℕ} (d : Mat n) : Prop :=
  (∀ i j, d i j = d j i) ∧ (∀ i j, 0 ≤ d i j) ∧ (∀ i, d i i = 0)

instance validDistances.decidable {n : ℕ} (d : Mat n) :
    Decidable (validDistances d) := by
  unfold validDistances; infer_instance

/-- Concrete 2-node distance matrix. -/
def dTwo : Mat 2 := ![![0, 1], ![1, 0]]

/-- Concrete all-zero 2-node distance matrix (two coincident nodes). -/
def dZero2 : Mat 2 := ![![0, 0], ![0, 0]]

/-- Concrete 3-node distance matrix whose first two rows coincide. -/
def dDup3 : Mat 3 := ![![0, 0, 5], ![0, 0, 5], ![5, 5, 0]]

/-- Concrete 4-node distance matrix separating entry ranking from row-space
ranking: from node 0, the smallest distance entry points to node 1, but the
row of node 2 is by far the nearest row in Euclidean row-space. -/
def dFour : Mat 4 := ![![0, 1, 2, 5], ![1, 0, 1, 100], ![2, 1, 0, 5], ![5, 100, 5, 0]]

/-- Concrete 3-node distance matrix from the spec's test scenario (§8). -/
def dSpec3 : Mat 3 := ![![0, 1, 2], ![1, 0, 1], ![2, 1, 0]]

/-- Embedding of `np.arange(start, stop, step)` for a positive `step`: the values
`start + i*step` for `0 ≤ i < ⌈(stop - start)/step⌉` (empty when that count
is not positive); the stop value itself is never attained. -/
def np_arange (start stop step : ℚ) : List ℚ :=
  (List.range (Int.toNat ⌈(stop - start) / step⌉)).map
    (fun i : ℕ => start + (i : ℚ) * step)

/-- Embedding of `_vectorize_matrix` (graph.py lines 399-410): the strictly-lower-triangle
entries `mat[np.tril_indices(len(mat), -1)]`, i.e. entries `mat[i][j]` with
`j < i`, in row-major order. -/
def _vectorize_matrix {n : ℕ} (mat : Mat n) : List ℚ :=
  (List.finRange n).flatMap
    (fun i => (((List.finRange n).filter (fun j => j < i)).map (fun j => mat i j)))

/-- Embedding of `np.sort(np.unique(vec))` (graph.py line 316): the distinct values of
`vec` in increasing order, here obtained by sorting and removing duplicates. -/
def unique_sorted (vec : List ℚ) : List ℚ :=
  (List.insertionSort (· ≤ ·) vec).dedup

/-- Candidate grid of `fit_sigma` (graph.py line 226):
`vsigma = np.arange(min_sigma, max_sigma, step=step)`. -/
def fit_sigma_grid (min_sigma max_sigma step : ℚ) : List ℚ :=
  np_arange min_sigma max_sigma step

/-- Candidate grid of `fit_epsilon` (graph.py lines 313-316):
`vdistances = np.sort(np.unique(_vectorize_matrix(distances)))`. -/
def fit_epsilon_grid {n : ℕ} (distances : Mat n) : List ℚ :=
  unique_sorted (_vectorize_matrix distances)

/-- First index of a minimal `|entry|` of the list, as computed by
`np.argmin(np.abs(error))` on a nonempty array (ties resolved to the first
occurrence; the result on `[]` is unspecified here, see `np_argmin_abs`). -/
def argminAbs : List ℚ → ℕ
  | [] => 0
  | x :: xs =>
    if xs.isEmpty then 0
    else if |x| ≤ |xs.getD (argminAbs xs) 0| then 0 else argminAbs xs + 1

/-- Embedding of `np.argmin(np.abs(error))`, with `none` for the `ValueError` numpy
raises on an empty array. -/
def np_argmin_abs (error : List ℚ) : Option ℕ :=
  if error.isEmpty then none else some (argminAbs error)

/-- NaN-filtering step shared by `fit_sigma` (graph.py lines 260-262) and
`fit_epsilon` (lines 350-352): `valid_idx = ~np.isnan(error)` followed by
`error = error[valid_idx]` and `vparameter = vparameter[valid_idx]`.
A NaN error value is embedded as `none`.  Positions are paired up to the
shorter length (in the program both arrays have the grid's length). -/
def eliminate_invalid (error : List (Option ℚ)) (vparameter : List ℚ) :
    List ℚ × List ℚ :=
  let pairs := (error.zip vparameter).filterMap (fun ep => ep.1.map (fun v => (v, ep.2)))
  (pairs.map Prod.fst, pairs.map Prod.snd)

/-- Result dictionary of `_return_results` (graph.py lines 389-394), without
the `signal` entry (the reconstructed signal is not modelled here). -/
structure FitResults where
  error : List ℚ
  best_param : ℚ
  vparameter : List ℚ

/-- Embedding of `_return_results` (graph.py lines 369-396): recomputes
`best_idx = np.argmin(np.abs(error))` (raising on an empty array, hence
`Option`) and packages the error curve, `vparameter[best_idx]` and the
parameter values. -/
def return_results (error : List ℚ) (vparameter : List ℚ) : Option FitResults :=
  (np_argmin_abs error).map
    (fun best_idx => ⟨error, vparameter.getD best_idx 0, vparameter⟩)

/-- Selection stage shared by `fit_sigma` (graph.py lines 259-277) and
`fit_epsilon` (lines 349-366): filter out NaN errors, compute
`best_idx = np.argmin(np.abs(error))` (an exception, `none`, when the
filtered array is empty), then package through `_return_results`. -/
def fit_select (error : List (Option ℚ)) (vparameter : List ℚ) :
    Option FitResults :=
  let filtered := eliminate_invalid error vparameter
  (np_argmin_abs filtered.1).bind (fun _ => return_results filtered.1 filtered.2)

/-- Sparsification step of `learn_graph` (graph.py lines 161, 177, 187):
`W[W < 1e-5] = 0`. -/
def snap_small {n : ℕ} (W : Mat n) : Mat n :=
  fun i j => if W i j < 1 / 100000 then 0 else W i j

/-- The `mode` parameter of `learn_graph` (`'Average'` or `'Trials'`). -/
inductive LGMode
  | Average
  | Trials

/-- Input data of `learn_graph`: a 2-D channels-by-samples array or a 3-D
trials-by-channels-by-samples array. -/
inductive LGData (ch T tr : ℕ)
  | twoD (data : Fin ch → Fin T → ℚ)
  | threeD (data : Fin tr → Fin ch → Fin T → ℚ)

/-- Output of `learn_graph`: a single `(W, Z)` pair, or per-trial stacks. -/
inductive LGOutput (ch tr : ℕ)
  | single (W : Mat ch) (Z : Mat ch)
  | stack (Ws : Fin tr → Mat ch) (Zs : Fin tr → Mat ch)

/-- Embedding of `learn_graph` (graph.py lines 99-189), parameterised over the external
collaborators: `graph_log_degree` (the pygsp2 solver, with `a`, `b`, `gamma`,
`maxiter` and `w_max` already applied, so it is a function from a distance
matrix to a learned weight matrix) and `euc_dist` (the Euclidean-distance
utility from the absent `utils` module; the spec lists it as an external
capability).  For 3-D data in `'Trials'` mode one snapped weight matrix and
one distance matrix per trial are returned; in `'Average'` mode the per-trial
distance matrices are averaged with `np.mean(Zs, axis=0)` before a single
learning step; 2-D data is a single learning step (the source computes `W`
twice in a row with identical arguments at lines 183-186; the second,
identical result is the one kept). -/
def learn_graph {ch T tr : ℕ} (graph_log_degree : Mat ch → Mat ch)
    (euc_dist : (Fin ch → Fin T → ℚ) → Mat ch) (mode : LGMode)
    (data : LGData ch T tr) : LGOutput ch tr :=
  match data with
  | LGData.threeD d =>
    match mode with
    | LGMode.Trials =>
      LGOutput.stack (fun t => snap_small (graph_log_degree (euc_dist (d t))))
        (fun t => euc_dist (d t))
    | LGMode.Average =>
      let Zs : Fin tr → Mat ch := fun t => euc_dist (d t)
      let Z : Mat ch := fun i j => (∑ t, Zs t i j) / (tr : ℚ)
      LGOutput.single (snap_small (graph_log_degree Z)) Z
  | LGData.twoD d =>
    let Z := euc_dist d
    let W := graph_log_degree Z
    LGOutput.single (snap_small W) Z

/-- Row selection `reconstructed[missing_idx, :]` for a list-valued
`missing_idx`: numpy fancy indexing returns the stack of the named rows,
an array of shape `(m, T)` for `m` indices. -/
def select_rows (mat : List (List ℚ)) (idx : List ℕ) : List (List ℚ) :=
  idx.map (fun r => mat.getD r [])

/-- Numpy assignment of a 2-D right-hand side of shape `(m, T)` into a slot
of shape `(T,)` (a single row of a 2-D array): broadcasting succeeds only for
`m = 1` with matching row length, otherwise a `ValueError` is raised
(`none`). -/
def broadcast_into_row (T : ℕ) (rhs : List (List ℚ)) : Option (List ℚ) :=
  match rhs with
  | [row] => if row.length = T then some row else none
  | _ => none

/-- Recording step `all_reconstructed[i, :] = reconstructed[missing_idx, :]`
of the sweeps (graph.py line 254 in `fit_sigma`, line 344 in `fit_epsilon`)
for a list-valued `missing_idx`: the left-hand slot is the `i`-th row, of
shape `(len(time),)`, of the 2-D array allocated at lines 240/330. -/
def record_reconstruction (T : ℕ) (reconstructed : List (List ℚ))
    (missing_idx : List ℕ) : Option (List ℚ) :=
  broadcast_into_row T (select_rows reconstructed missing_idx)

/-! ## Helper lemmas -/

theorem snap_small_zero_or_ge {n : ℕ} (W : Mat n) (i j : Fin n) :
    snap_small W i j = 0 ∨ 1 / 100000 ≤ snap_small W i j := by
  unfold snap_small
  split
  · exact Or.inl rfl
  · exact Or.inr (le_of_not_lt (by assumption))

theorem rowDistSq_self {n : ℕ} (d : Mat n) (i : Fin n) : rowDistSq d i i = 0 := by
  unfold rowDistSq
  apply List.sum_eq_zero
  intro x hx
  simp only [List.mem_map] at hx
  obtain ⟨t, _, rfl⟩ := hx
  simp

theorem rowDistSq_nonneg {n : ℕ} (d : Mat n) (i j : Fin n) :
    0 ≤ rowDistSq d i j := by
  unfold rowDistSq
  apply List.sum_nonneg
  intro x hx
  simp only [List.mem_map] at hx
  obtain ⟨t, _, rfl⟩ := hx
  positivity

theorem rowDistSq_pos {n : ℕ} (d : Mat n) {i j : Fin n}
    (h : ∃ t, d i t ≠ d j t) : 0 < rowDistSq d i j := by
  obtain ⟨t, ht⟩ := h
  have hpos : 0 < (d i t - d j t) ^ 2 := by
    have hne : d i t - d j t ≠ 0 := sub_ne_zero.mpr ht
    positivity
  have hmem : (d i t - d j t) ^ 2 ∈
      (List.finRange n).map (fun t => (d i t - d j t) ^ 2) :=
    List.mem_map.mpr ⟨t, List.mem_finRange t, rfl⟩
  have hle : (d i t - d j t) ^ 2 ≤ rowDistSq d i j := by
    unfold rowDistSq
    refine List.single_le_sum (fun x hx => ?_) _ hmem
    simp only [List.mem_map] at hx
    obtain ⟨u, _, rfl⟩ := hx
    positivity
  exact lt_of_lt_of_le hpos hle

theorem keyLe_isTotal {n : ℕ} (d : Mat n) (i : Fin n) :
    IsTotal (Fin n) (keyLe d i) := by
  constructor
  intro a b
  rcases lt_trichotomy (rowDistSq d i a) (rowDistSq d i b) with h | h | h
  · exact Or.inl (Or.inl h)
  · rcases le_total a b with hab | hab
    · exact Or.inl (Or.inr ⟨h, hab⟩)
    · exact Or.inr (Or.inr ⟨h.symm, hab⟩)
  · exact Or.inr (Or.inl h)

theorem keyLe_isTrans {n : ℕ} (d : Mat n) (i : Fin n) :
    IsTrans (Fin n) (keyLe d i) := by
  constructor
  intro a b c hab hbc
  rcases hab with h1 | ⟨h1, h1'⟩ <;> rcases hbc with h2 | ⟨h2, h2'⟩
  · exact Or.inl (h1.trans h2)
  · exact Or.inl (by rw [← h2]; exact h1)
  · exact Or.inl (by rw [h1]; exact h2)
  · exact Or.inr ⟨h1.trans h2, h1'.trans h2'⟩

/-- When no other row of `d` equals row `i`, the `kneighbors` ranking for
query `i` puts `i` itself first (it is the unique candidate at row-space
distance 0), so the "skip self" step really removes `i`. -/
theorem knn_order_head {n : ℕ} (d : Mat n) (i : Fin n)
    (hrows : ∀ j : Fin n, j ≠ i → ∃ t, d i t ≠ d j t) :
    ∃ rest, knn_order d i = i :: rest ∧ i ∉ rest := by
  haveI := keyLe_isTotal d i
  haveI := keyLe_isTrans d i
  have hsorted : List.Sorted (keyLe d i) (knn_order d i) :=
    List.sorted_insertionSort _ _
  have hperm : (knn_order d i).Perm (List.finRange n) :=
    List.perm_insertionSort _ _
  have hnodup : (knn_order d i).Nodup := hperm.nodup_iff.mpr (List.nodup_finRange n)
  have hmem : i ∈ knn_order d i := by
    unfold knn_order
    exact (List.mem_insertionSort _).mpr (List.mem_finRange i)
  rcases hL : knn_order d i with _ | ⟨h, t⟩
  · rw [hL] at hmem
    cases hmem
  · rw [hL] at hsorted hnodup hmem
    have hhi : h = i := by
      by_contra hne
      have hit : i ∈ t := by
        rcases List.mem_cons.mp hmem with hh | hh
        · exact absurd hh.symm hne
        · exact hh
      have hkey : keyLe d i h i := (List.sorted_cons.mp hsorted).1 i hit
      have hpos : 0 < rowDistSq d i h :=
        rowDistSq_pos d (hrows h (fun he => hne he))
      rcases hkey with hlt | ⟨heq, _⟩
      · rw [rowDistSq_self] at hlt
        exact absurd hlt (not_lt.mpr (rowDistSq_nonneg d i h))
      · rw [rowDistSq_self] at heq
        exact absurd heq (ne_of_gt hpos)
    subst hhi
    exact ⟨t, rfl, (List.nodup_cons.mp hnodup).1⟩

theorem knn_not_self_neighbor {n : ℕ} (d : Mat n) (k : ℕ) (i : Fin n)
    (hrows : ∀ j : Fin n, j ≠ i → ∃ t, d i t ≠ d j t) :
    i ∉ knn_neighbors d k i := by
  obtain ⟨rest, hL, hni⟩ := knn_order_head d i hrows
  intro hmem
  unfold knn_neighbors at hmem
  rw [hL, List.take_succ_cons, List.drop_one, List.tail_cons] at hmem
  exact hni (List.take_subset _ _ hmem)

theorem argminAbs_cons (x : ℚ) (xs : List ℚ) :
    argminAbs (x :: xs) = if xs.isEmpty then 0 else
      if |x| ≤ |xs.getD (argminAbs xs) 0| then 0 else argminAbs xs + 1 := rfl

theorem argminAbs_lt_length : ∀ l : List ℚ, l ≠ [] → argminAbs l < l.length := by
  intro l
  induction l with
  | nil => intro h; exact absurd rfl h
  | cons x xs ih =>
    intro _
    rw [argminAbs_cons]
    by_cases hxs : xs.isEmpty
    · rw [if_pos hxs]; simp
    · rw [if_neg hxs]
      split
      · simp
      · have h1 : argminAbs xs < xs.length :=
          ih (by simpa [List.isEmpty_iff] using hxs)
        simpa using Nat.succ_lt_succ h1

theorem argminAbs_min : ∀ (l : List ℚ) (j : ℕ), j < l.length →
    |l.getD (argminAbs l) 0| ≤ |l.getD j 0| := by
  intro l
  induction l with
  | nil => intro j hj; simp at hj
  | cons x xs ih =>
    intro j hj
    by_cases hxs : xs.isEmpty
    · have hnil : xs = [] := List.isEmpty_iff.mp hxs
      subst hnil
      have hj0 : j = 0 := by simpa using hj
      subst hj0
      simp [argminAbs_cons]
    · rw [argminAbs_cons, if_neg hxs]
      by_cases hle : |x| ≤ |xs.getD (argminAbs xs) 0|
      · rw [if_pos hle]
        cases j with
        | zero => simp
        | succ jj =>
          have hj' : jj < xs.length := by simpa using hj
          calc |(x :: xs).getD 0 0| = |x| := by simp
            _ ≤ |xs.getD (argminAbs xs) 0| := hle
            _ ≤ |xs.getD jj 0| := ih jj hj'
            _ = |(x :: xs).getD (jj + 1) 0| := by simp
      · rw [if_neg hle]
        cases j with
        | zero =>
          push_neg at hle
          simpa using hle.le
        | succ jj =>
          have hj' : jj < xs.length := by simpa using hj
          simpa using ih jj hj'

theorem eliminate_invalid_fst : ∀ (error : List (Option ℚ))
    (vparameter : List ℚ), error.length = vparameter.length →
    (eliminate_invalid error vparameter).1 = error.filterMap id := by
  intro error
  induction error with
  | nil => intro vparameter _; simp [eliminate_invalid]
  | cons e es ih =>
    intro vparameter hlen
    cases vparameter with
    | nil => simp at hlen
    | cons p ps =>
      have hlen' : es.length = ps.length := by simpa using hlen
      have ihps := ih ps hlen'
      cases e with
      | none =>
        simpa [eliminate_invalid, List.zip_cons_cons, List.filterMap_cons]
          using ihps
      | some v =>
        simpa [eliminate_invalid, List.zip_cons_cons, List.filterMap_cons]
          using ihps

theorem eliminate_invalid_snd (error : List (Option ℚ)) (vparameter : List ℚ) :
    (eliminate_invalid error vparameter).2 = (error.zip vparameter).filterMap
      (fun ep => ep.1.map (fun _ => ep.2)) := by
  have h : (eliminate_invalid error vparameter).2 =
      List.map Prod.snd ((error.zip vparameter).filterMap
        (fun ep => ep.1.map (fun v => (v, ep.2)))) := rfl
  rw [h, List.map_filterMap]
  congr 1
  funext ep
  cases ep.1 <;> rfl

/-! ## Claim theorems -/

/-- C9: in every mode of `learn_graph` (2-D input, 3-D `'Average'`, 3-D
`'Trials'`), the returned weight matrix (or each per-trial weight matrix)
contains no entry strictly between 0 and 1e-5: every learned weight below
1e-5 is exactly 0, whatever the external solver and distance utility
return. -/
theorem learn_graph_no_tiny_weights {ch T tr : ℕ}
    (graph_log_degree : Mat ch → Mat ch)
    (euc_dist : (Fin ch → Fin T → ℚ) → Mat ch)
    (mode : LGMode) (data : LGData ch T tr) :
    match learn_graph graph_log_degree euc_dist mode data with
    | LGOutput.single W _ => ∀ i j, W i j = 0 ∨ 1 / 100000 ≤ W i j
    | LGOutput.stack Ws _ => ∀ t i j, Ws t i j = 0 ∨ 1 / 100000 ≤ Ws t i j := by
  cases data with
  | twoD d => exact fun i j => snap_small_zero_or_ge _ i j
  | threeD d =>
    cases mode with
    | Average => exact fun i j => snap_small_zero_or_ge _ i j
    | Trials => exact fun t i j => snap_small_zero_or_ge _ i j

/-- Witness for C9 at a concrete 2-trial, 2-channel, 2-sample input with an
identity solver and a zero distance utility. -/
theorem learn_graph_no_tiny_weights_witness :
    match @learn_graph 2 2 2 (fun Z => Z) (fun _ i j => (i : ℚ) + (j : ℚ))
        LGMode.Trials (LGData.threeD (fun _ _ _ => 0)) with
    | LGOutput.single W _ => ∀ i j, W i j = 0 ∨ 1 / 100000 ≤ W i j
    | LGOutput.stack Ws _ => ∀ t i j, Ws t i j = 0 ∨ 1 / 100000 ≤ Ws t i j :=
  @learn_graph_no_tiny_weights 2 2 2 (fun Z => Z) (fun _ i j => (i : ℚ) + (j : ℚ))
    LGMode.Trials (LGData.threeD (fun _ _ _ => 0))

/-- C10: when every candidate's reconstruction error is NaN, the shared
selection stage of `fit_sigma`/`fit_epsilon` raises (the argmin of the
empty filtered error array) instead of returning a results dictionary. -/
theorem fit_select_all_nan_raises (error : List (Option ℚ))
    (vparameter : List ℚ) (h : ∀ e ∈ error, e = none) :
    fit_select error vparameter = none := by
  have hnil : (eliminate_invalid error vparameter).1 = [] := by
    have : (error.zip vparameter).filterMap
        (fun ep => ep.1.map (fun v => (v, ep.2))) = [] := by
      rw [List.filterMap_eq_nil_iff]
      intro ep hep
      have h1 : ep.1 ∈ error := (List.of_mem_zip hep).1
      rw [h ep.1 h1]
      rfl
    simp [eliminate_invalid, this]
  simp [fit_select, hnil, np_argmin_abs]

/-- Witness for C10 at a concrete all-NaN sweep. -/
theorem fit_select_all_nan_raises_witness :
    fit_select [none, none] [1, 2] = none :=
  fit_select_all_nan_raises [none, none] [1, 2] (by decide)

/-- C5: the ENN policy of `compute_graph` weights every pair by the Gaussian
kernel `exp(-d^2 / (2 sigma^2))`, forces every entry whose distance exceeds
`epsilon` to exactly 0, and forces the diagonal to exactly 0. -/
theorem enn_weights_pointwise {n : ℕ} (d : Mat n) (epsilon sigma : ℚ)
    (i j : Fin n) :
    enn_weights d epsilon sigma i i = 0 ∧
    (epsilon < d i j → enn_weights d epsilon sigma i j = 0) ∧
    (i ≠ j → d i j ≤ epsilon →
      enn_weights d epsilon sigma i j =
        Real.exp (-((d i j : ℝ)) ^ 2 / (2 * ((sigma : ℝ)) ^ 2))) := by
  refine ⟨by simp [enn_weights], fun hlt => ?_, fun hne hle => ?_⟩
  · unfold enn_weights
    by_cases hij : i = j
    · simp [hij]
    · simp [hij, hlt]
  · unfold enn_weights gaussian_kernel
    simp [hne, not_lt.mpr hle]

/-- Witness for C5 on the 2-node matrix: the thresholded entry vanishes and
the kept entry is the Gaussian kernel value. -/
theorem enn_weights_pointwise_witness :
    ((1 / 2 : ℚ) < dTwo 0 1 ∧ enn_weights dTwo (1 / 2) (1 / 10) 0 1 = 0) ∧
    (dTwo 0 1 ≤ 2 ∧ enn_weights dTwo 2 (1 / 10) 0 1 =
      Real.exp (-((dTwo 0 1 : ℚ) : ℝ) ^ 2 / (2 * (((1 / 10 : ℚ)) : ℝ) ^ 2))) := by
  have h1 : (1 / 2 : ℚ) < dTwo 0 1 := by norm_num [dTwo]
  have h2 : dTwo 0 1 ≤ 2 := by norm_num [dTwo]
  exact ⟨⟨h1, (enn_weights_pointwise dTwo (1 / 2) (1 / 10) 0 1).2.1 h1⟩,
    ⟨h2, (enn_weights_pointwise dTwo 2 (1 / 10) 0 1).2.2 (by decide) h2⟩⟩

/-- C6 (evaluation at the failing input): with two missing channels the
recording step `all_reconstructed[i, :] = reconstructed[missing_idx, :]`
raises a broadcasting `ValueError` — a `(2, T)` block cannot be assigned to
the `(T,)` row slot — while a single-element index list succeeds. -/
theorem record_reconstruction_multi_channel_raises :
    record_reconstruction 2 [[1, 1], [2, 2], [3, 3]] [0, 1] = none ∧
    record_reconstruction 2 [[1, 1], [2, 2], [3, 3]] [0] = some [1, 1] := by
  constructor
  · norm_num [record_reconstruction, select_rows, broadcast_into_row]
  · norm_num [record_reconstruction, select_rows, broadcast_into_row]

/-- C4 (counterexample): the all-zero 2-node distance matrix is valid
(square, symmetric, non-negative, zero diagonal) and `sigma = 1 > 0`, yet the
ENN weight of the off-diagonal pair is exactly `exp(0) = 1`, not `< 1`. -/
theorem enn_weights_entry_eq_one_on_valid_input :
    validDistances dZero2 ∧ (0 : ℚ) < 1 ∧
    enn_weights dZero2 (1 / 2) 1 0 1 = 1 := by
  refine ⟨?_, by norm_num, ?_⟩
  · norm_num [validDistances, dZero2, Fin.forall_fin_succ, Matrix.cons_val_zero,
      Matrix.cons_val_succ]
  · have h01 : dZero2 0 1 = 0 := by norm_num [dZero2]
    simp [enn_weights, gaussian_kernel, h01, (by decide : ¬((0 : Fin 2) = 1))]

/-- C4 (amended): for a valid distance matrix and `sigma > 0`, the ENN weight
matrix has zero diagonal and every entry in the closed interval `[0, 1]`;
the upper bound tightens to a strict `< 1` everywhere once all off-diagonal
distances are strictly positive (an entry equal to 1 occurs exactly when two
distinct nodes are at distance 0 within the threshold, as in the
counterexample). -/
theorem enn_weights_range {n : ℕ} (d : Mat n) (sigma epsilon : ℚ)
    (hd : validDistances d) (hs : 0 < sigma) :
    (∀ i, enn_weights d epsilon sigma i i = 0) ∧
    (∀ i j, 0 ≤ enn_weights d epsilon sigma i j ∧
      enn_weights d epsilon sigma i j ≤ 1) ∧
    ((∀ i j, i ≠ j → 0 < d i j) → ∀ i j, enn_weights d epsilon sigma i j < 1) := by
  have hs' : ((sigma : ℝ)) ≠ 0 := by
    exact_mod_cast hs.ne'
  refine ⟨fun i => by simp [enn_weights], fun i j => ?_, fun hpos i j => ?_⟩
  · unfold enn_weights gaussian_kernel
    by_cases hij : i = j
    · simp [hij]
    · by_cases hlt : epsilon < d i j
      · simp [hij, hlt]
      · simp only [hij, hlt, if_false, if_neg]
        refine ⟨(Real.exp_pos _).le, Real.exp_le_one_iff.mpr ?_⟩
        rw [neg_div]
        exact neg_nonpos.mpr (by positivity)
  · unfold enn_weights gaussian_kernel
    by_cases hij : i = j
    · simp [hij]
    · by_cases hlt : epsilon < d i j
      · simp [hij, hlt]
      · simp only [hij, hlt, if_false, if_neg]
        refine Real.exp_lt_one_iff.mpr ?_
        rw [neg_div]
        refine neg_neg_iff_pos.mpr ?_
        have hdij : (0 : ℝ) < ((d i j : ℚ) : ℝ) := by
          exact_mod_cast hpos i j hij
        positivity

/-- Witness for the amended C4 at the spec's 3-node scenario matrix. -/
theorem enn_weights_range_witness :
    (∀ i, enn_weights dSpec3 (3 / 2) 1 i i = 0) ∧
    (∀ i j, 0 ≤ enn_weights dSpec3 (3 / 2) 1 i j ∧
      enn_weights dSpec3 (3 / 2) 1 i j ≤ 1) ∧
    ((∀ i j, i ≠ j → 0 < dSpec3 i j) → ∀ i j, enn_weights dSpec3 (3 / 2) 1 i j < 1) :=
  enn_weights_range dSpec3 1 (3 / 2)
    (by norm_num [validDistances, dSpec3, Fin.forall_fin_succ, Matrix.cons_val_zero,
      Matrix.cons_val_succ])
    (by norm_num)

/-- C1 (evaluation at the failing input): in the `fit_epsilon` sweep the
per-iteration call `compute_graph(distances, epsilon=epsilon, sigma=sigma)`
binds `distances` to the `W` parameter, so the graph handed to the
interpolation step is built directly from the raw distance matrix: it is the
same for every candidate epsilon, and on the 2-node matrix its (0,1) weight
is the raw distance 1 instead of the ENN weight `exp(-50)` that the claimed
per-candidate construction (candidate `epsilon = 1`, the only grid value,
with `sigma = 1/10`) would produce. -/
theorem fit_epsilon_graph_ignores_candidate :
    (∀ e1 e2 : ℚ, fit_epsilon_iter_graph dTwo (1 / 10) e1 =
      fit_epsilon_iter_graph dTwo (1 / 10) e2) ∧
    fit_epsilon_grid dTwo = [1] ∧
    fit_epsilon_iter_graph dTwo (1 / 10) 1 =
      some (fun i j => ((dTwo i j : ℚ) : ℝ)) ∧
    ((dTwo 0 1 : ℚ) : ℝ) = 1 ∧
    enn_weights dTwo 1 (1 / 10) 0 1 = Real.exp (-50) ∧
    Real.exp (-50 : ℝ) ≠ 1 := by
  refine ⟨fun e1 e2 => rfl, ?_, rfl, ?_, ?_, ?_⟩
  · norm_num [fit_epsilon_grid, unique_sorted, _vectorize_matrix, dTwo,
      List.insertionSort, List.orderedInsert, List.dedup,
      List.finRange, List.range, List.range.loop, List.pmap, List.filter]
  · norm_num [dTwo]
  · have h01 : dTwo 0 1 = 1 := by norm_num [dTwo]
    simp only [enn_weights, gaussian_kernel, h01,
      (by decide : ¬((0 : Fin 2) = 1)), if_false]
    norm_num
  · exact ne_of_lt (Real.exp_lt_one_iff.mpr (by norm_num))

/-- C3 (evaluation at the failing input): on the valid 4-node matrix `dFour`
with `k = 1 < N - 1` and `sigma = 1`, node 0's smallest distance entry points
to node 1 (`1 < 2 < 5`), so the claimed KNN weight matrix has its single
nonzero entry of row 0 at column 1; the code instead ranks candidates by the
Euclidean distance between rows of the distance matrix, selects node 2, and
produces `W[0][1] = 0` and `W[0][2] = exp(-2) ≠ 0`. -/
theorem knn_selects_by_row_space_not_by_entries :
    validDistances dFour ∧ (1 : ℕ) < 4 - 1 ∧
    dFour 0 1 < dFour 0 2 ∧ dFour 0 2 < dFour 0 3 ∧
    knn_neighbors dFour 1 0 = [2] ∧
    knn_weights dFour 1 1 0 1 = 0 ∧
    knn_weights dFour 1 1 0 2 = Real.exp (-2) ∧
    Real.exp (-2 : ℝ) ≠ 0 := by
  have hn : knn_neighbors dFour 1 0 = [2] := by
    norm_num [knn_neighbors, knn_order, List.insertionSort, List.orderedInsert,
      keyLe, rowDistSq, dFour, List.finRange, List.range, List.range.loop,
      List.pmap, Fin.le_def]
    decide
  refine ⟨?_, by norm_num, by norm_num [dFour], by norm_num [dFour], hn, ?_, ?_, ?_⟩
  · norm_num [validDistances, dFour, Fin.forall_fin_succ, Matrix.cons_val_zero,
      Matrix.cons_val_succ]
  · simp [knn_weights, hn, (by decide : ¬((1 : Fin 4) = 2))]
  · have h02 : dFour 0 2 = 2 := by norm_num [dFour]
    simp only [knn_weights, hn, List.mem_singleton, if_pos rfl, gaussian_kernel, h02]
    norm_num
  · exact Real.exp_ne_zero _

/-- C8 (counterexample): the 3-node matrix `dDup3` is a valid distance matrix
(symmetric, non-negative, zero diagonal) whose first two rows coincide; with
`k = 1` the ranked candidate list of query 1 starts with node 0, the blind
"skip self" step removes node 0 instead of node 1, and the KNN weight matrix
gets the diagonal entry `W[1][1] = exp(0) = 1 ≠ 0`. -/
theorem knn_weights_nonzero_diagonal_on_duplicate_rows :
    validDistances dDup3 ∧ knn_weights dDup3 1 1 1 1 = 1 ∧ (1 : ℝ) ≠ 0 := by
  have hn : knn_neighbors dDup3 1 1 = [1] := by
    norm_num [knn_neighbors, knn_order, List.insertionSort, List.orderedInsert,
      keyLe, rowDistSq, dDup3, List.finRange, List.range, List.range.loop,
      List.pmap, Fin.le_def]
  refine ⟨?_, ?_, one_ne_zero⟩
  · norm_num [validDistances, dDup3, Fin.forall_fin_succ, Matrix.cons_val_zero,
      Matrix.cons_val_succ]
  · have h11 : dDup3 1 1 = 0 := by norm_num [dDup3]
    simp only [knn_weights, hn, List.mem_singleton, if_pos rfl, gaussian_kernel, h11]
    norm_num

/-- C8 (amended): for every valid distance matrix and all parameters, both
policies produce weight matrices with (finite) non-negative entries; the
diagonal is identically zero for the ENN policy, and for the KNN policy it is
identically zero provided no two rows of the distance matrix coincide (with
duplicate rows the "skip self" step can fail to remove the query node, as in
the counterexample). -/
theorem compute_graph_weight_invariants {n : ℕ} (d : Mat n)
    (epsilon sigma : ℚ) (k : ℕ) (hd : validDistances d) :
    (∀ i j, 0 ≤ enn_weights d epsilon sigma i j) ∧
    (∀ i, enn_weights d epsilon sigma i i = 0) ∧
    (∀ i j, 0 ≤ knn_weights d sigma k i j) ∧
    ((∀ a b : Fin n, a ≠ b → ∃ t, d a t ≠ d b t) →
      ∀ i, knn_weights d sigma k i i = 0) := by
  refine ⟨fun i j => ?_, fun i => by simp [enn_weights], fun i j => ?_,
    fun hrows i => ?_⟩
  · unfold enn_weights gaussian_kernel
    by_cases hij : i = j
    · simp [hij]
    · by_cases hlt : epsilon < d i j
      · simp [hij, hlt]
      · simp only [hij, hlt, if_false, if_neg]
        exact (Real.exp_pos _).le
  · unfold knn_weights gaussian_kernel
    by_cases hmem : j ∈ knn_neighbors d k i
    · simp only [hmem, if_pos]
      exact (Real.exp_pos _).le
    · simp [hmem]
  · have hni : i ∉ knn_neighbors d k i :=
      knn_not_self_neighbor d k i (fun j hj => hrows i j (fun he => hj he.symm))
    simp [knn_weights, hni]

/-- Witness for the amended C8 at the 4-node matrix `dFour` (whose rows are
pairwise distinct). -/
theorem compute_graph_weight_invariants_witness :
    (∀ i j, 0 ≤ enn_weights dFour (1 / 2) (1 / 10) i j) ∧
    (∀ i, enn_weights dFour (1 / 2) (1 / 10) i i = 0) ∧
    (∀ i j, 0 ≤ knn_weights dFour (1 / 10) 2 i j) ∧
    ((∀ a b : Fin 4, a ≠ b → ∃ t, dFour a t ≠ dFour b t) →
      ∀ i, knn_weights dFour (1 / 10) 2 i i = 0) :=
  compute_graph_weight_invariants dFour (1 / 2) (1 / 10) 2
    (by norm_num [validDistances, dFour, Fin.forall_fin_succ, Matrix.cons_val_zero,
      Matrix.cons_val_succ])

/-- C7 (counterexample): with `min_sigma = 0`, `max_sigma = 1`, `step = 1/2`
the sigma grid is `np.arange(0, 1, 1/2) = [0, 1/2]`; it does not reach
`max_sigma` (np.arange is half-open). -/
theorem fit_sigma_grid_excludes_max :
    fit_sigma_grid 0 1 (1 / 2) = [0, 1 / 2] ∧
    (1 : ℚ) ∉ fit_sigma_grid 0 1 (1 / 2) := by
  have h : fit_sigma_grid 0 1 (1 / 2) = [0, 1 / 2] := by
    norm_num [fit_sigma_grid, np_arange]
    rw [show Int.toNat 2 = 2 from rfl, List.range_succ, List.range_succ,
      List.range_zero]
    norm_num
  refine ⟨h, ?_⟩
  rw [h]
  norm_num

/-- C7 (amended): for `0 < step` and `min_sigma < max_sigma`, the sigma grid
of `fit_sigma` is the uniform half-open sequence `min_sigma + i*step` for
`0 ≤ i < ⌈(max_sigma - min_sigma)/step⌉`: it starts at `min_sigma`, every
entry lies in `[min_sigma, max_sigma)` — `max_sigma` itself is excluded —
and the first omitted point `min_sigma + N*step` already reaches
`max_sigma`.  The epsilon grid of `fit_epsilon` is as claimed: the sorted,
duplicate-free list of the strictly-lower-triangular distance values. -/
theorem fit_grids_characterization {n : ℕ} (d : Mat n) (mn mx st : ℚ)
    (hst : 0 < st) (hlt : mn < mx) :
    (∀ x, x ∈ fit_sigma_grid mn mx st ↔
      ∃ i : ℕ, i < (⌈(mx - mn) / st⌉).toNat ∧ x = mn + i * st) ∧
    mn ∈ fit_sigma_grid mn mx st ∧
    (∀ x ∈ fit_sigma_grid mn mx st, mn ≤ x ∧ x < mx) ∧
    mx ≤ mn + ((⌈(mx - mn) / st⌉).toNat : ℚ) * st ∧
    (fit_epsilon_grid d).Sorted (· ≤ ·) ∧
    (fit_epsilon_grid d).Nodup ∧
    (∀ x, x ∈ fit_epsilon_grid d ↔ ∃ i j : Fin n, j < i ∧ d i j = x) := by
  have hq : 0 < (mx - mn) / st := div_pos (sub_pos.mpr hlt) hst
  have hceil : 0 < ⌈(mx - mn) / st⌉ := Int.ceil_pos.mpr hq
  have hNZ : ((⌈(mx - mn) / st⌉.toNat : ℤ)) = ⌈(mx - mn) / st⌉ :=
    Int.toNat_of_nonneg hceil.le
  have hNQ : ((⌈(mx - mn) / st⌉.toNat : ℚ)) = ((⌈(mx - mn) / st⌉ : ℤ) : ℚ) := by
    exact_mod_cast congrArg (Int.cast : ℤ → ℚ) hNZ
  have hmem : ∀ x, x ∈ fit_sigma_grid mn mx st ↔
      ∃ i : ℕ, i < (⌈(mx - mn) / st⌉).toNat ∧ x = mn + i * st := by
    intro x
    constructor
    · intro hx
      obtain ⟨i, hi, rfl⟩ := List.mem_map.mp hx
      exact ⟨i, List.mem_range.mp hi, rfl⟩
    · rintro ⟨i, hi, rfl⟩
      exact List.mem_map.mpr ⟨i, List.mem_range.mpr hi, rfl⟩
  have hNpos : 0 < (⌈(mx - mn) / st⌉).toNat := by omega
  refine ⟨hmem, (hmem mn).mpr ⟨0, hNpos, by norm_num⟩, ?_, ?_, ?_, ?_, ?_⟩
  · intro x hx
    obtain ⟨i, hiN, rfl⟩ := (hmem x).mp hx
    constructor
    · have : (0 : ℚ) ≤ (i : ℚ) * st := mul_nonneg (Nat.cast_nonneg i) hst.le
      linarith
    · have h1 : (i : ℚ) ≤ ((⌈(mx - mn) / st⌉).toNat : ℚ) - 1 := by
        have h0 : (i + 1 : ℕ) ≤ (⌈(mx - mn) / st⌉).toNat := hiN
        have h2 : ((i + 1 : ℕ) : ℚ) ≤ ((⌈(mx - mn) / st⌉).toNat : ℚ) :=
          Nat.cast_le.mpr h0
        push_cast at h2
        linarith
      have h2 : ((⌈(mx - mn) / st⌉).toNat : ℚ) - 1 < (mx - mn) / st := by
        rw [hNQ]
        have := Int.ceil_lt_add_one ((mx - mn) / st)
        linarith
      have hiq : (i : ℚ) < (mx - mn) / st := lt_of_le_of_lt h1 h2
      have h3 : (i : ℚ) * st < ((mx - mn) / st) * st :=
        mul_lt_mul_of_pos_right hiq hst
      rw [div_mul_cancel₀ _ hst.ne'] at h3
      linarith
  · have h4 : (mx - mn) / st ≤ ((⌈(mx - mn) / st⌉).toNat : ℚ) := by
      rw [hNQ]
      exact Int.le_ceil _
    have h5 := mul_le_mul_of_nonneg_right h4 hst.le
    rw [div_mul_cancel₀ _ hst.ne'] at h5
    linarith
  · exact List.Pairwise.sublist (List.dedup_sublist _)
      (List.sorted_insertionSort _ _)
  · exact List.nodup_dedup _
  · intro x
    rw [fit_epsilon_grid, unique_sorted, List.mem_dedup, List.mem_insertionSort]
    unfold _vectorize_matrix
    simp only [List.mem_flatMap, List.mem_map, List.mem_filter,
      List.mem_finRange, true_and, decide_eq_true_eq]

/-- Witness for the amended C7 at the spec's 3-node scenario matrix with
`min_sigma = 0`, `max_sigma = 1`, `step = 1/2`. -/
theorem fit_grids_characterization_witness :
    (∀ x, x ∈ fit_sigma_grid 0 1 (1 / 2) ↔
      ∃ i : ℕ, i < (⌈((1 : ℚ) - 0) / (1 / 2)⌉).toNat ∧ x = 0 + i * (1 / 2)) ∧
    (0 : ℚ) ∈ fit_sigma_grid 0 1 (1 / 2) ∧
    (∀ x ∈ fit_sigma_grid 0 1 (1 / 2), (0 : ℚ) ≤ x ∧ x < 1) ∧
    (1 : ℚ) ≤ 0 + ((⌈((1 : ℚ) - 0) / (1 / 2)⌉).toNat : ℚ) * (1 / 2) ∧
    (fit_epsilon_grid dSpec3).Sorted (· ≤ ·) ∧
    (fit_epsilon_grid dSpec3).Nodup ∧
    (∀ x, x ∈ fit_epsilon_grid dSpec3 ↔ ∃ i j : Fin 3, j < i ∧ dSpec3 i j = x) :=
  fit_grids_characterization dSpec3 0 1 (1 / 2) (by norm_num) (by norm_num)

/-- C2: in the selection stage shared by `fit_sigma` and `fit_epsilon`,
NaN error entries are removed before the minimisation; the result packages
exactly the non-NaN error curve and the corresponding parameter values, and
the returned best parameter sits at the argmin index of the filtered error
curve, whose value is minimal among all remaining error values. -/
theorem fit_select_filters_nan (error : List (Option ℚ)) (vparameter : List ℚ)
    (hlen : error.length = vparameter.length)
    (hpos : ∀ e ∈ error, e.elim True (fun v => 0 ≤ v))
    (hvalid : ∃ e ∈ error, e ≠ none) :
    ∃ r, fit_select error vparameter = some r ∧
      r.error = error.filterMap id ∧
      r.vparameter = (error.zip vparameter).filterMap
        (fun ep => ep.1.map (fun _ => ep.2)) ∧
      r.best_param = r.vparameter.getD (argminAbs r.error) 0 ∧
      argminAbs r.error < r.error.length ∧
      (∀ j < r.error.length,
        r.error.getD (argminAbs r.error) 0 ≤ r.error.getD j 0) := by
  have hfst := eliminate_invalid_fst error vparameter hlen
  have hsnd := eliminate_invalid_snd error vparameter
  have hne : error.filterMap id ≠ [] := by
    obtain ⟨e, he, hen⟩ := hvalid
    cases e with
    | none => exact absurd rfl hen
    | some v =>
      exact List.ne_nil_of_mem (List.mem_filterMap.mpr ⟨some v, he, rfl⟩)
  have hfne : (eliminate_invalid error vparameter).1 ≠ [] := by
    rw [hfst]; exact hne
  have hargm : np_argmin_abs (eliminate_invalid error vparameter).1 =
      some (argminAbs (eliminate_invalid error vparameter).1) := by
    simp [np_argmin_abs, List.isEmpty_iff, hfne]
  have hsel : fit_select error vparameter =
      some ⟨(eliminate_invalid error vparameter).1,
        (eliminate_invalid error vparameter).2.getD
          (argminAbs (eliminate_invalid error vparameter).1) 0,
        (eliminate_invalid error vparameter).2⟩ := by
    have h0 : fit_select error vparameter =
        (np_argmin_abs (eliminate_invalid error vparameter).1).bind
          (fun _ => return_results (eliminate_invalid error vparameter).1
            (eliminate_invalid error vparameter).2) := rfl
    rw [h0, hargm]
    simp [return_results, hargm]
  refine ⟨_, hsel, hfst, hsnd, rfl, ?_, ?_⟩
  · exact argminAbs_lt_length _ hfne
  · intro j hj
    have hmemnn : ∀ m ∈ (eliminate_invalid error vparameter).1, 0 ≤ m := by
      intro m hm
      rw [hfst] at hm
      obtain ⟨e, he, hid⟩ := List.mem_filterMap.mp hm
      have := hpos e he
      cases e with
      | none => cases hid
      | some v =>
        cases hid
        exact this
    have habs := argminAbs_min (eliminate_invalid error vparameter).1 j hj
    have hk := argminAbs_lt_length (eliminate_invalid error vparameter).1 hfne
    have h1 : (eliminate_invalid error vparameter).1.getD
        (argminAbs (eliminate_invalid error vparameter).1) 0 =
        |(eliminate_invalid error vparameter).1.getD
          (argminAbs (eliminate_invalid error vparameter).1) 0| := by
      rw [abs_of_nonneg]
      apply hmemnn
      rw [List.getD_eq_getElem _ _ hk]
      exact List.getElem_mem _
    have h2 : |(eliminate_invalid error vparameter).1.getD j 0| =
        (eliminate_invalid error vparameter).1.getD j 0 := by
      rw [abs_of_nonneg]
      apply hmemnn
      rw [List.getD_eq_getElem _ _ hj]
      exact List.getElem_mem _
    rw [h1, ← h2]
    exact habs

/-- Witness for C2 at the concrete sweep `error = [NaN, 5, 2]`,
`vparameter = [1, 2, 3]`: the NaN entry is dropped and the parameter 3
(error 2) is selected. -/
theorem fit_select_filters_nan_witness :
    ∃ r, fit_select [none, some 5, some 2] [1, 2, 3] = some r ∧
      r.error = [none, some (5 : ℚ), some 2].filterMap id ∧
      r.vparameter = ([none, some (5 : ℚ), some 2].zip [(1 : ℚ), 2, 3]).filterMap
        (fun ep => ep.1.map (fun _ => ep.2)) ∧
      r.best_param = r.vparameter.getD (argminAbs r.error) 0 ∧
      argminAbs r.error < r.error.length ∧
      (∀ j < r.error.length,
        r.error.getD (argminAbs r.error) 0 ≤ r.error.getD j 0) :=
  fit_select_filters_nan [none, some 5, some 2] [1, 2, 3] rfl
    (by intro e he; fin_cases he <;> norm_num)
    ⟨some 5, by norm_num, by simp⟩

end EEGraSP
